import Mathlib

/-!
Verification of the harmonic-cascade demos of the `vines` repository
(`demo/hifu/domain_convergence_transducer.py` and
`demo/hifu/transducer_nonlinear_homogeneous_interpolation.py`).

Numeric code is embedded over `ℚ` (exact rational arithmetic standing for
the scripts' float arithmetic); complex pressure fields are modelled by
their pointwise values, since every claim under study concerns scalar
coefficients, index bookkeeping, or dataflow, none of which depends on the
imaginary parts being tracked separately.
-/

namespace Vines

/-! ### Attenuation functions (both variants)

`domain_convergence_transducer.py` lines 59-63:
    alpha = alpha0 * (f * 1e-6)**eta
    alpha = alpha / 8.686  # convert to Nepers/m

`transducer_nonlinear_homogeneous_interpolation.py` lines 50-53:
    alpha = alpha0 * (f * 1e-6)**eta

In both scripts the exponent `eta` is the integer 2, so the power is
embedded as a natural-number power. -/

/-- `attenuation` of `domain_convergence_transducer.py` (divides by 8.686). -/
def attenuation_dc (f alpha0 : ℚ) (eta : ℕ) : ℚ :=
  (alpha0 * (f * (1 / 1000000)) ^ eta) / 8.686

/-- `attenuation` of `transducer_nonlinear_homogeneous_interpolation.py`
(no Nepers conversion). -/
def attenuation_interp (f alpha0 : ℚ) (eta : ℕ) : ℚ :=
  alpha0 * (f * (1 / 1000000)) ^ eta

/-! ### The nonlinear source-term ladder

Both scripts build the source term `xIn` for harmonic loop index
`i_harm = n` by an `if/elif` ladder with no `else`.  The ladder is
embedded pointwise (per voxel): `p i` is the value of the `i`-th stored
harmonic field `P[i]` at the voxel under consideration.  A missing branch
is `none` (the Python ladder binds nothing for such `n`).

`domain_convergence_transducer.py` lines 246-260 (orders 1-4). -/
def xIn_dc (beta omega rho c : ℚ) (p : ℕ → ℚ) : ℕ → Option ℚ
  | 1 => some (-2 * beta * omega ^ 2 / (rho * c ^ 4) * (p 0 * p 0))
  | 2 => some (-9 * beta * omega ^ 2 / (rho * c ^ 4) * (p 0 * p 1))
  | 3 => some (-8 * beta * omega ^ 2 / (rho * c ^ 4) *
      (p 1 * p 1 + 2 * p 0 * p 2))
  | 4 => some (-25 * beta * omega ^ 2 / (rho * c ^ 4) *
      (p 0 * p 3 + p 1 * p 2))
  | _ => none

/-- `transducer_nonlinear_homogeneous_interpolation.py` lines 237-277
(orders 1-6; in the orders 2 and 3 branches the values read are the prior
fields interpolated onto the current grid, which at a fixed voxel are
again just values of the prior harmonics, written `p i` here). -/
def xIn_interp (beta omega rho c : ℚ) (p : ℕ → ℚ) : ℕ → Option ℚ
  | 1 => some (-2 * beta * omega ^ 2 / (rho * c ^ 4) * (p 0 * p 0))
  | 2 => some (-9 * beta * omega ^ 2 / (rho * c ^ 4) * (p 0 * p 1))
  | 3 => some (-8 * beta * omega ^ 2 / (rho * c ^ 4) *
      (p 1 * p 1 + 2 * p 0 * p 2))
  | 4 => some (-25 * beta * omega ^ 2 / (rho * c ^ 4) *
      (p 0 * p 3 + p 1 * p 2))
  | 5 => some (-18 * beta * omega ^ 2 / (rho * c ^ 4) *
      (2 * p 0 * p 4 + 2 * p 1 * p 3 + p 2 ^ 2))
  | 6 => some (-49 * beta * omega ^ 2 / (rho * c ^ 4) *
      (p 0 * p 5 + p 1 * p 4 + p 2 * p 3))
  | _ => none

/-! ### The spec's closed-form source formula (for the refinement claim C2)

Modelled from the spec's words, to be compared with the code's ladder:
“a weighted sum over all unordered pairs `(i, j)` of prior orders with
`i + j = n - 1` (0-indexed orders), using coupling weight `w(n) = (n+1)^2`
times a combinatorial multiplicity (1 if `i == j`, 2 otherwise), scaled by
`-β·ω²/(ρ·c⁴)`.” -/

/-- Unordered pairs `(i, j)`, `i ≤ j`, with `i + j = n - 1`. -/
def unorderedPairs (n : ℕ) : List (ℕ × ℕ) :=
  ((List.range n).map (fun i => (i, n - 1 - i))).filter (fun q => q.1 ≤ q.2)

/-- The quadratic combination `Σ mult·P_i·P_j` over `unorderedPairs n`,
with multiplicity 1 on diagonal pairs and 2 off the diagonal. -/
def pairSum (p : ℕ → ℚ) (n : ℕ) : ℚ :=
  ((unorderedPairs n).map
    (fun q => (if q.1 = q.2 then (1 : ℚ) else 2) * p q.1 * p q.2)).sum

/-- The spec's claimed source formula with weight `w(n) = (n+1)²`. -/
def specSource (beta omega rho c : ℚ) (p : ℕ → ℚ) (n : ℕ) : ℚ :=
  -beta * omega ^ 2 / (rho * c ^ 4) * ((n + 1) ^ 2 : ℚ) * pairSum p n

/-- The corrected source formula with weight `w(n) = (n+1)²/2`. -/
def specSourceHalf (beta omega rho c : ℚ) (p : ℕ → ℚ) (n : ℕ) : ℚ :=
  -beta * omega ^ 2 / (rho * c ^ 4) * (((n + 1) ^ 2 : ℚ) / 2) * pairSum p n

end Vines

namespace Vines

/-- C9: the two variants apply the Nepers conversion inconsistently: for
every frequency `f` and parameters `α0`, `η`, the attenuation of the
homogeneous-interpolation variant is exactly `8.686` times that of the
domain-convergence variant. -/
theorem attenuation_variants_differ_by_nepers_factor
    (f alpha0 : ℚ) (eta : ℕ) :
    attenuation_interp f alpha0 eta = 8.686 * attenuation_dc f alpha0 eta := by
  unfold attenuation_interp attenuation_dc
  field_simp
  ring

/-- C1: for unit `β, ω, ρ, c` the scalar multiplier on the quadratic source
term is exactly `-2` at order 1 (on `P0·P0`), `-9` at order 2 (on `P0·P1`),
`-8` at order 3 (on `P1·P1 + 2·P0·P2`, multiplicity 2 on the cross term),
and `-25` at order 4 (on `P0·P3 + P1·P2`). -/
theorem coupling_coefficients_orders_one_to_four (p : ℕ → ℚ) :
    xIn_dc 1 1 1 1 p 1 = some (-2 * (p 0 * p 0)) ∧
    xIn_dc 1 1 1 1 p 2 = some (-9 * (p 0 * p 1)) ∧
    xIn_dc 1 1 1 1 p 3 = some (-8 * (p 1 * p 1 + 2 * (p 0 * p 2))) ∧
    xIn_dc 1 1 1 1 p 4 = some (-25 * (p 0 * p 3 + p 1 * p 2)) := by
  refine ⟨?_, ?_, ?_, ?_⟩ <;> · simp only [xIn_dc, Option.some.injEq]; ring

/-- `unorderedPairs` evaluated at the six supported orders. -/
theorem unorderedPairs_eval :
    unorderedPairs 1 = [(0, 0)] ∧
    unorderedPairs 2 = [(0, 1)] ∧
    unorderedPairs 3 = [(0, 2), (1, 1)] ∧
    unorderedPairs 4 = [(0, 3), (1, 2)] ∧
    unorderedPairs 5 = [(0, 4), (1, 3), (2, 2)] ∧
    unorderedPairs 6 = [(0, 5), (1, 4), (2, 3)] := by
  refine ⟨rfl, rfl, rfl, rfl, rfl, rfl⟩

/-- `pairSum` evaluated at the six supported orders. -/
theorem pairSum_eval (p : ℕ → ℚ) :
    pairSum p 1 = p 0 * p 0 ∧
    pairSum p 2 = 2 * p 0 * p 1 ∧
    pairSum p 3 = 2 * p 0 * p 2 + p 1 * p 1 ∧
    pairSum p 4 = 2 * p 0 * p 3 + 2 * p 1 * p 2 ∧
    pairSum p 5 = 2 * p 0 * p 4 + 2 * p 1 * p 3 + p 2 * p 2 ∧
    pairSum p 6 = 2 * p 0 * p 5 + 2 * p 1 * p 4 + 2 * p 2 * p 3 := by
  refine ⟨?_, ?_, ?_, ?_, ?_, ?_⟩ <;>
    · simp [pairSum, unorderedPairs_eval.1, unorderedPairs_eval.2.1,
        unorderedPairs_eval.2.2.1, unorderedPairs_eval.2.2.2.1,
        unorderedPairs_eval.2.2.2.2.1, unorderedPairs_eval.2.2.2.2.2]
      try ring

/-- C2 counterexample: the claim's formula (coupling weight `(n+1)²`) does
not match the code's ladder.  At order 1 with unit parameters and all prior
values 1, the code computes `-2` while the claimed formula gives `-4`. -/
theorem source_formula_counterexample :
    xIn_dc 1 1 1 1 (fun _ => 1) 1 = some (-2) ∧
    specSource 1 1 1 1 (fun _ => 1) 1 = -4 ∧
    some (-2 : ℚ) ≠ some (-4 : ℚ) := by
  refine ⟨?_, ?_, ?_⟩
  · norm_num [xIn_dc]
  · norm_num [specSource, pairSum, unorderedPairs_eval.1]
  · decide

/-- C2 amended: for every supported order `1 ≤ n ≤ 6` of the richest
variant, the code's source term equals `-β·ω²/(ρ·c⁴)` times the coupling
weight `w(n) = (n+1)²/2` (half the claimed weight) times the sum over
unordered pairs `(i,j)` with `i + j = n - 1` of `mult·P_i·P_j`,
multiplicity 1 on the diagonal and 2 otherwise. -/
theorem source_formula_halved_weight
    (beta omega rho c : ℚ) (p : ℕ → ℚ) (n : ℕ) (h1 : 1 ≤ n) (h6 : n ≤ 6) :
    xIn_interp beta omega rho c p n =
      some (specSourceHalf beta omega rho c p n) := by
  interval_cases n <;>
    · simp only [xIn_interp, specSourceHalf, pairSum_eval p |>.1,
        pairSum_eval p |>.2.1, pairSum_eval p |>.2.2.1,
        pairSum_eval p |>.2.2.2.1, pairSum_eval p |>.2.2.2.2.1,
        pairSum_eval p |>.2.2.2.2.2, Option.some.injEq]
      push_cast
      ring

/-- Witness for `source_formula_halved_weight` at order 3. -/
theorem source_formula_halved_weight_witness :
    xIn_interp 1 1 1 1 (fun _ => 1) 3 =
      some (specSourceHalf 1 1 1 1 (fun _ => 1) 3) :=
  source_formula_halved_weight 1 1 1 1 (fun _ => 1) 3 (by norm_num) (by norm_num)

/-! ### Grid-refinement trigger (C3)

`transducer_nonlinear_homogeneous_interpolation.py` lines 175-176:
    def is_power_of_two(n):
        return (n != 0) and (n & (n-1) == 0)
and lines 183-192: the refinement block runs only under `if i_harm != 1:`
followed by `if is_power_of_two(i_harm):`. -/

/-- `is_power_of_two` (line 175), the Python bit trick verbatim. -/
def is_power_of_two (n : ℕ) : Bool :=
  (n != 0) && (n &&& (n - 1) == 0)

/-- Whether the harmonic loop at index `n` regenerates the mesh: the
`is_power_of_two(i_harm)` test nested inside `if i_harm != 1:`. -/
def triggersRefinement (n : ℕ) : Bool :=
  (n != 1) && is_power_of_two n

/-- The bit trick `n & (n-1) == 0` recognises exactly the powers of two
among the positive naturals. -/
theorem land_pred_eq_zero_iff (n : ℕ) (hn : 0 < n) :
    (n &&& (n - 1) = 0) ↔ ∃ k, n = 2 ^ k := by
  induction n using Nat.strong_induction_on with
  | _ n ih =>
    rcases Nat.even_or_odd n with he | ho
    · obtain ⟨m, hm⟩ := he
      have hm2 : n = 2 * m := by omega
      have hmpos : 0 < m := by omega
      have hbit : n = Nat.bit false m := by simp [Nat.bit_val]; omega
      have hpred : n - 1 = Nat.bit true (m - 1) := by simp [Nat.bit_val]; omega
      have hland : n &&& (n - 1) = 2 * (m &&& (m - 1)) := by
        conv_lhs => rw [hpred, hbit]
        rw [Nat.land_bit]
        simp [Nat.bit_val]
      rw [hland]
      constructor
      · intro h
        have h0 : m &&& (m - 1) = 0 := by omega
        obtain ⟨k, hk⟩ := (ih m (by omega) hmpos).mp h0
        exact ⟨k + 1, by rw [hm2, hk, pow_succ]; ring⟩
      · rintro ⟨k, hk⟩
        match k with
        | 0 => rw [pow_zero] at hk; omega
        | k + 1 =>
          rw [pow_succ] at hk
          have hmk : m = 2 ^ k := by omega
          have h0 : m &&& (m - 1) = 0 := (ih m (by omega) hmpos).mpr ⟨k, hmk⟩
          omega
    · obtain ⟨m, hm⟩ := ho
      by_cases hm0 : m = 0
      · subst hm0
        have h1 : n = 1 := by omega
        subst h1
        constructor
        · intro _; exact ⟨0, rfl⟩
        · intro _; decide
      · have hbit : n = Nat.bit true m := by simp [Nat.bit_val]; omega
        have hpred : n - 1 = Nat.bit false m := by simp [Nat.bit_val]; omega
        have hland : n &&& (n - 1) = 2 * m := by
          conv_lhs => rw [hpred, hbit]
          rw [Nat.land_bit]
          simp [Nat.bit_val, Nat.and_self]
        rw [hland]
        constructor
        · intro h
          exact absurd h (by omega)
        · rintro ⟨k, hk⟩
          exfalso
          match k with
          | 0 => rw [pow_zero] at hk; omega
          | k + 1 =>
            rw [pow_succ] at hk
            omega

/-- C3 counterexample: order 3 is one past the power of two 2, yet the
cascade does not refine there (and conversely it does refine at order 4,
which is not one past a power of two). -/
theorem refinement_trigger_counterexample :
    triggersRefinement 3 = false ∧ (3 : ℕ) = 2 ^ 1 + 1 ∧
    triggersRefinement 4 = true ∧ (∀ k < 4, (4 : ℕ) ≠ 2 ^ k + 1) := by
  refine ⟨by decide, by decide, by decide, by decide⟩

/-- C3 amended: for every order `n ≥ 1`, the cascade triggers a grid
refinement exactly when `n` itself is a power of two with `n ≥ 2`
(orders 2, 4, 8, …), not when `n` is one past a power of two. -/
theorem refinement_trigger_iff (n : ℕ) (hn : 1 ≤ n) :
    triggersRefinement n = true ↔ 2 ≤ n ∧ ∃ k, n = 2 ^ k := by
  unfold triggersRefinement is_power_of_two
  simp only [Bool.and_eq_true, bne_iff_ne, ne_eq, beq_iff_eq]
  rw [land_pred_eq_zero_iff n hn]
  constructor
  · rintro ⟨h1, -, hp⟩
    exact ⟨by omega, hp⟩
  · rintro ⟨h2, hp⟩
    exact ⟨by omega, by omega, hp⟩

/-- Witness for `refinement_trigger_iff` at order 4. -/
theorem refinement_trigger_iff_witness :
    triggersRefinement 4 = true ↔ 2 ≤ 4 ∧ ∃ k, (4 : ℕ) = 2 ^ k :=
  refinement_trigger_iff 4 (by norm_num)

/-! ### Grid refinement geometry (C7)

`transducer_nonlinear_homogeneous_interpolation.py` lines 194-205:
    dx2 = dx/2
    wx2 = wx / 2
    ...
    r2[:, :, :, 0] = r2[:, :, :, 0] - r2[-1, 0, 0, 0] + r[-1, 0, 0, 0] + \
                    -dx/2 - dx2/2
After the shift, the x-coordinate of the last voxel centre of the new grid
is exactly `farOld - dx/2 - dx2/2`, whatever `generatedomain` produced,
because the code subtracts the new grid's own far coordinate first. -/

/-- Refined spacing `dx2 = dx/2` (line 194). -/
def refined_dx (dx : ℚ) : ℚ := dx / 2

/-- Far-boundary (last voxel centre) x-coordinate of the refined grid,
from the line-204 shift: `r[-1] - dx/2 - dx2/2`. -/
def refinedFarCoord (farOld dx : ℚ) : ℚ :=
  farOld - dx / 2 - refined_dx dx / 2

/-- C7 counterexample: for prior far boundary `0` and prior spacing `1`,
the refined far boundary is `-3/4`, which differs from the prior far
boundary by `3/4` — more than one new-grid spacing (`1/2`). -/
theorem refinement_alignment_counterexample :
    refinedFarCoord 0 1 = -(3 / 4) ∧
    ¬ |refinedFarCoord 0 1 - 0| ≤ refined_dx 1 := by
  constructor
  · norm_num [refinedFarCoord, refined_dx]
  · have h : refinedFarCoord 0 1 - 0 = -(3 / 4) := by
      norm_num [refinedFarCoord, refined_dx]
    rw [h, abs_neg, abs_of_pos (by norm_num : (0 : ℚ) < 3 / 4)]
    norm_num [refined_dx]

/-- C7 amended: for every refinement step (spacing halved, extents halved),
the far-boundary coordinate of the new grid equals the far-boundary
coordinate of the prior grid minus exactly `3/2` new-grid spacing units —
and is therefore within two (not one) new-grid spacing units of it. -/
theorem refinement_far_boundary_offset (farOld dx : ℚ) (hdx : 0 < dx) :
    refinedFarCoord farOld dx = farOld - 3 / 2 * refined_dx dx ∧
    |refinedFarCoord farOld dx - farOld| ≤ 2 * refined_dx dx := by
  unfold refinedFarCoord refined_dx
  constructor
  · ring
  · have h : farOld - dx / 2 - dx / 2 / 2 - farOld = -(3 / 4 * dx) := by ring
    rw [h, abs_neg, abs_of_pos (by linarith)]
    linarith

/-- Witness for `refinement_far_boundary_offset` at `farOld = 0`, `dx = 1`. -/
theorem refinement_far_boundary_offset_witness :
    refinedFarCoord 0 1 = 0 - 3 / 2 * refined_dx 1 ∧
    |refinedFarCoord 0 1 - 0| ≤ 2 * refined_dx 1 :=
  refinement_far_boundary_offset 0 1 (by norm_num)

/-! ### Which fields the source term reads, and on which grid (C4)

In `transducer_nonlinear_homogeneous_interpolation.py` the mesh is
regenerated (lines 183-214) at loop indices `n` with `n != 1` and
`is_power_of_two(n)`; fields are appended to `P` at the end of each loop
iteration on whatever grid is then current.  The order-`n` branch of the
`xIn` ladder reads earlier fields either through the stored interpolation
functions evaluated at the current grid's points (orders 2 and 3) or as
the raw stored arrays `P[...]` (orders 1 and 4-6). -/

/-- Number of mesh regenerations performed at loop indices `≤ n`. -/
def gridGen (n : ℕ) : ℕ :=
  ((List.range (n + 1)).filter (fun m => triggersRefinement m)).length

/-- Grid generation on which the field of order `i` was computed: order 0
is the incident field on the initial grid; order `i ≥ 1` is appended during
iteration `i`, after any refinement of that iteration. -/
def fieldGen (i : ℕ) : ℕ := gridGen i

/-- The `(field index, read through interpolation?)` reads of the order-`n`
`xIn` branch (lines 237-277). -/
def sourceReads : ℕ → List (ℕ × Bool)
  | 1 => [(0, false)]
  | 2 => [(0, true), (1, true)]
  | 3 => [(0, true), (1, true), (2, true)]
  | 4 => [(0, false), (1, false), (2, false), (3, false)]
  | 5 => [(0, false), (1, false), (2, false), (3, false), (4, false)]
  | 6 => [(0, false), (1, false), (2, false), (3, false), (4, false), (5, false)]
  | _ => []

/-- C4 fails on the code: at order 4 the grid has been refined twice
(at orders 2 and 4), yet the source term reads the raw stored `P[0]`
(computed on grid generation 0) and `P[3]` (generation 1) without
remapping them onto the current generation-2 grid; orders 1-3 do respect
the remap discipline. -/
theorem refinement_remap_violation :
    gridGen 4 = 2 ∧
    (0, false) ∈ sourceReads 4 ∧ fieldGen 0 = 0 ∧
    (3, false) ∈ sourceReads 4 ∧ fieldGen 3 = 1 ∧
    (∀ n ≤ 3, ∀ q ∈ sourceReads n, q.2 = true ∨ fieldGen q.1 = gridGen n) := by
  decide

/-! ### Fall-through of the coupling ladder (C8)

Both scripts' `xIn` ladders have no `else`.  In Python, an uncovered loop
index leaves the variable `xIn` bound to its value from the previous
iteration (order 1 is always covered, so `xIn` is always bound), after
which `P.append(mvp(xInVec))` runs unconditionally. -/

/-- Cascade state visible to the source-term/append part of the harmonic
loop: the history of appended fields and the current binding of `xIn`
(each field abstracted to its value at a fixed voxel). -/
structure CascadeState where
  hist : List ℚ
  lastXIn : ℚ

/-- One harmonic iteration of the interpolation variant, restricted to the
source-term ladder and the history append: the ladder rebinds `xIn` when
it has a branch for `n` and otherwise leaves the stale binding, and the
operator output is appended unconditionally (lines 237-292). -/
def cascadeStep (op : ℚ → ℚ) (beta omega rho c : ℚ) (p : ℕ → ℚ)
    (s : CascadeState) (n : ℕ) : CascadeState :=
  let x := (xIn_interp beta omega rho c p n).getD s.lastXIn
  { hist := s.hist ++ [op x], lastXIn := x }

/-- C8 fails on the code: order 7 has no coupling-table entry, yet the
cascade does not abort — it appends a field computed from the stale
order-6 source term left in `xIn`. -/
theorem unsupported_order_still_appends
    (op : ℚ → ℚ) (beta omega rho c : ℚ) (p : ℕ → ℚ) (s : CascadeState) :
    xIn_interp beta omega rho c p 7 = none ∧
    (cascadeStep op beta omega rho c p s 7).hist = s.hist ++ [op s.lastXIn] ∧
    (cascadeStep op beta omega rho c p s 7).lastXIn = s.lastXIn :=
  ⟨rfl, rfl, rfl⟩

/-! ### Domain restriction for the convergence study (C5, C6)

`domain_convergence_transducer.py` lines 169-193 (`restrict_domain`):
    rel_p = np.abs(f_rhs)/np.max(np.abs(f_rhs))
    where_bigger = np.argwhere(rel_p > tol)
    min_x_idx = np.min(where_bigger[:, 0]) ... max_z_idx = ...
    P_trim = np.zeros((L, M, N), ...)
    P_trim[min_x_idx:max_x_idx, min_y_idx:max_y_idx, min_z_idx:max_z_idx] = \
        f_rhs[...same slices...]
A field over an `L×M×N` voxel grid is a function `Fin L → Fin M → Fin N → ℚ`
(the complex amplitude is modelled by its value, `np.abs` by `|·|`).  The
Python slice `a:b` is half-open: it copies indices `a ≤ i < b`. -/

/-- A pressure/source field sampled on an `L×M×N` voxel grid. -/
abbrev Field (L M N : ℕ) := Fin L → Fin M → Fin N → ℚ

/-- `np.max(np.abs(f_rhs))` (0 for an empty grid, on which the Python
crashes instead; no theorem below concerns that case). -/
def maxAbs {L M N : ℕ} (f : Field L M N) : ℚ :=
  (((Finset.univ : Finset (Fin L × Fin M × Fin N)).image
    (fun v => |f v.1 v.2.1 v.2.2|)).max).unbot' 0

/-- `np.argwhere(rel_p > tol)` as a voxel set. -/
def bigSet {L M N : ℕ} (f : Field L M N) (tol : ℚ) :
    Finset (Fin L × Fin M × Fin N) :=
  Finset.univ.filter (fun v => tol < |f v.1 v.2.1 v.2.2| / maxAbs f)

/-- `min_x_idx = np.min(where_bigger[:, 0])`. -/
def minXidx {L M N : ℕ} (f : Field L M N) (tol : ℚ)
    (h : (bigSet f tol).Nonempty) : Fin L :=
  ((bigSet f tol).image (fun v => v.1)).min' (h.image _)

/-- `max_x_idx = np.max(where_bigger[:, 0])`. -/
def maxXidx {L M N : ℕ} (f : Field L M N) (tol : ℚ)
    (h : (bigSet f tol).Nonempty) : Fin L :=
  ((bigSet f tol).image (fun v => v.1)).max' (h.image _)

/-- `min_y_idx`. -/
def minYidx {L M N : ℕ} (f : Field L M N) (tol : ℚ)
    (h : (bigSet f tol).Nonempty) : Fin M :=
  ((bigSet f tol).image (fun v => v.2.1)).min' (h.image _)

/-- `max_y_idx`. -/
def maxYidx {L M N : ℕ} (f : Field L M N) (tol : ℚ)
    (h : (bigSet f tol).Nonempty) : Fin M :=
  ((bigSet f tol).image (fun v => v.2.1)).max' (h.image _)

/-- `min_z_idx`. -/
def minZidx {L M N : ℕ} (f : Field L M N) (tol : ℚ)
    (h : (bigSet f tol).Nonempty) : Fin N :=
  ((bigSet f tol).image (fun v => v.2.2)).min' (h.image _)

/-- `max_z_idx`. -/
def maxZidx {L M N : ℕ} (f : Field L M N) (tol : ℚ)
    (h : (bigSet f tol).Nonempty) : Fin N :=
  ((bigSet f tol).image (fun v => v.2.2)).max' (h.image _)

/-- `P_trim`: zeros everywhere, then the half-open slice copied from
`f_rhs` (lines 189-191). -/
def P_trim {L M N : ℕ} (f : Field L M N) (tol : ℚ)
    (h : (bigSet f tol).Nonempty) : Field L M N :=
  fun i j k =>
    if minXidx f tol h ≤ i ∧ i < maxXidx f tol h ∧
       minYidx f tol h ≤ j ∧ j < maxYidx f tol h ∧
       minZidx f tol h ≤ k ∧ k < maxZidx f tol h
    then f i j k else 0

/-- A 1×1×1 grid whose single voxel holds the value 1. -/
def oneVoxelField : Field 1 1 1 := fun _ _ _ => 1

/-- The maximal amplitude of `oneVoxelField` is 1. -/
theorem maxAbs_oneVoxel : maxAbs oneVoxelField = 1 := by
  unfold maxAbs oneVoxelField
  simp only [abs_one]
  rw [Finset.image_const Finset.univ_nonempty (1 : ℚ), Finset.max_singleton]
  rfl

/-- The single voxel of `oneVoxelField` exceeds any tolerance below 1. -/
theorem oneVoxel_nonempty_of_lt_one (t : ℚ) (ht : t < 1) :
    (bigSet oneVoxelField t).Nonempty := by
  refine ⟨(0, 0, 0), ?_⟩
  simp only [bigSet, Finset.mem_filter, Finset.mem_univ, true_and,
    maxAbs_oneVoxel, oneVoxelField, abs_one]
  simpa using ht

/-- The single voxel of `oneVoxelField` exceeds the tolerance 1/2. -/
theorem oneVoxel_nonempty : (bigSet oneVoxelField (1 / 2)).Nonempty :=
  oneVoxel_nonempty_of_lt_one (1 / 2) (by norm_num)

/-- The single voxel of `oneVoxelField` exceeds the tolerance 1/4. -/
theorem oneVoxel_nonempty_quarter : (bigSet oneVoxelField (1 / 4)).Nonempty :=
  oneVoxel_nonempty_of_lt_one (1 / 4) (by norm_num)

/-- C5 counterexample: for `oneVoxelField` at tolerance 1/2 the computed
bounding box is exactly the single above-threshold voxel `(0,0,0)`
(min = max = 0 on every axis), yet the trimmed source is 0 there rather
than the original value 1: the Python half-open slice excludes the voxels
at the maximal index, so the trimmed source does NOT equal the original
at every voxel inside the inclusive box. -/
theorem trim_excludes_max_index_voxel :
    minXidx oneVoxelField (1 / 2) oneVoxel_nonempty = 0 ∧
    maxXidx oneVoxelField (1 / 2) oneVoxel_nonempty = 0 ∧
    minYidx oneVoxelField (1 / 2) oneVoxel_nonempty = 0 ∧
    maxYidx oneVoxelField (1 / 2) oneVoxel_nonempty = 0 ∧
    minZidx oneVoxelField (1 / 2) oneVoxel_nonempty = 0 ∧
    maxZidx oneVoxelField (1 / 2) oneVoxel_nonempty = 0 ∧
    oneVoxelField 0 0 0 = 1 ∧
    P_trim oneVoxelField (1 / 2) oneVoxel_nonempty 0 0 0 = 0 := by
  have hx : maxXidx oneVoxelField (1 / 2) oneVoxel_nonempty = 0 :=
    Subsingleton.elim _ _
  refine ⟨Subsingleton.elim _ _, hx, Subsingleton.elim _ _,
    Subsingleton.elim _ _, Subsingleton.elim _ _, Subsingleton.elim _ _,
    rfl, ?_⟩
  unfold P_trim
  rw [if_neg]
  rintro ⟨-, hlt, -⟩
  rw [hx] at hlt
  exact absurd hlt (lt_irrefl 0)

/-- C5 amended: when some voxel exceeds the tolerance, the trimmed source
equals the original at every voxel inside the HALF-OPEN index box
(`min ≤ idx < max` on each axis — the voxels at the maximal index on each
axis are excluded and zeroed), and is zero at every voxel outside it. -/
theorem trim_halfopen_box {L M N : ℕ} (f : Field L M N) (tol : ℚ)
    (h : (bigSet f tol).Nonempty) (i : Fin L) (j : Fin M) (k : Fin N) :
    (minXidx f tol h ≤ i ∧ i < maxXidx f tol h ∧
     minYidx f tol h ≤ j ∧ j < maxYidx f tol h ∧
     minZidx f tol h ≤ k ∧ k < maxZidx f tol h →
       P_trim f tol h i j k = f i j k) ∧
    (¬ (minXidx f tol h ≤ i ∧ i < maxXidx f tol h ∧
        minYidx f tol h ≤ j ∧ j < maxYidx f tol h ∧
        minZidx f tol h ≤ k ∧ k < maxZidx f tol h) →
       P_trim f tol h i j k = 0) := by
  unfold P_trim
  constructor
  · intro hc
    rw [if_pos hc]
  · intro hc
    rw [if_neg hc]

/-- Witness for `trim_halfopen_box` on `oneVoxelField` at voxel (0,0,0). -/
theorem trim_halfopen_box_witness :
    (minXidx oneVoxelField (1 / 2) oneVoxel_nonempty ≤ 0 ∧
     (0 : Fin 1) < maxXidx oneVoxelField (1 / 2) oneVoxel_nonempty ∧
     minYidx oneVoxelField (1 / 2) oneVoxel_nonempty ≤ 0 ∧
     (0 : Fin 1) < maxYidx oneVoxelField (1 / 2) oneVoxel_nonempty ∧
     minZidx oneVoxelField (1 / 2) oneVoxel_nonempty ≤ 0 ∧
     (0 : Fin 1) < maxZidx oneVoxelField (1 / 2) oneVoxel_nonempty →
       P_trim oneVoxelField (1 / 2) oneVoxel_nonempty 0 0 0 =
         oneVoxelField 0 0 0) ∧
    (¬ (minXidx oneVoxelField (1 / 2) oneVoxel_nonempty ≤ 0 ∧
        (0 : Fin 1) < maxXidx oneVoxelField (1 / 2) oneVoxel_nonempty ∧
        minYidx oneVoxelField (1 / 2) oneVoxel_nonempty ≤ 0 ∧
        (0 : Fin 1) < maxYidx oneVoxelField (1 / 2) oneVoxel_nonempty ∧
        minZidx oneVoxelField (1 / 2) oneVoxel_nonempty ≤ 0 ∧
        (0 : Fin 1) < maxZidx oneVoxelField (1 / 2) oneVoxel_nonempty) →
       P_trim oneVoxelField (1 / 2) oneVoxel_nonempty 0 0 0 = 0) :=
  trim_halfopen_box oneVoxelField (1 / 2) oneVoxel_nonempty 0 0 0

/-- C6: for a fixed source field and tolerances `t2 < t1` with the
`t1`-threshold set non-empty, the bounding box at the looser threshold
`t2` contains the box at `t1`: per-axis min indices are non-increasing and
max indices non-decreasing as the tolerance decreases. -/
theorem trim_box_monotone {L M N : ℕ} (f : Field L M N) (t1 t2 : ℚ)
    (ht : t2 < t1) (h1 : (bigSet f t1).Nonempty)
    (h2 : (bigSet f t2).Nonempty) :
    minXidx f t2 h2 ≤ minXidx f t1 h1 ∧
    maxXidx f t1 h1 ≤ maxXidx f t2 h2 ∧
    minYidx f t2 h2 ≤ minYidx f t1 h1 ∧
    maxYidx f t1 h1 ≤ maxYidx f t2 h2 ∧
    minZidx f t2 h2 ≤ minZidx f t1 h1 ∧
    maxZidx f t1 h1 ≤ maxZidx f t2 h2 := by
  have hsub : bigSet f t1 ⊆ bigSet f t2 := by
    intro v hv
    simp only [bigSet, Finset.mem_filter, Finset.mem_univ, true_and] at hv ⊢
    exact lt_trans ht hv
  exact ⟨Finset.min'_subset (h1.image _) (Finset.image_subset_image hsub),
    Finset.max'_subset (h1.image _) (Finset.image_subset_image hsub),
    Finset.min'_subset (h1.image _) (Finset.image_subset_image hsub),
    Finset.max'_subset (h1.image _) (Finset.image_subset_image hsub),
    Finset.min'_subset (h1.image _) (Finset.image_subset_image hsub),
    Finset.max'_subset (h1.image _) (Finset.image_subset_image hsub)⟩

/-- Witness for `trim_box_monotone` on `oneVoxelField`, `t1 = 1/2`,
`t2 = 1/4`. -/
theorem trim_box_monotone_witness :
    minXidx oneVoxelField (1 / 4) oneVoxel_nonempty_quarter ≤
      minXidx oneVoxelField (1 / 2) oneVoxel_nonempty ∧
    maxXidx oneVoxelField (1 / 2) oneVoxel_nonempty ≤
      maxXidx oneVoxelField (1 / 4) oneVoxel_nonempty_quarter ∧
    minYidx oneVoxelField (1 / 4) oneVoxel_nonempty_quarter ≤
      minYidx oneVoxelField (1 / 2) oneVoxel_nonempty ∧
    maxYidx oneVoxelField (1 / 2) oneVoxel_nonempty ≤
      maxYidx oneVoxelField (1 / 4) oneVoxel_nonempty_quarter ∧
    minZidx oneVoxelField (1 / 4) oneVoxel_nonempty_quarter ≤
      minZidx oneVoxelField (1 / 2) oneVoxel_nonempty ∧
    maxZidx oneVoxelField (1 / 2) oneVoxel_nonempty ≤
      maxZidx oneVoxelField (1 / 4) oneVoxel_nonempty_quarter :=
  trim_box_monotone oneVoxelField (1 / 2) (1 / 4) (by norm_num)
    oneVoxel_nonempty oneVoxel_nonempty_quarter

/-! ### The convergence study leaves the cascade state unchanged (C10)

`domain_convergence_transducer.py` harmonic-loop body (lines 234-279):
the source term `xIn` is built from the stored fields by the ladder; the
study `convergence_domain_size` (lines 196-230) trims COPIES of `xIn`
(`restrict_domain` writes into a fresh `np.zeros` array, lines 189-191)
and applies the operator to them, recording trimmed fields and their
operator images (its on-axis line and pickle output are pure projections
of the operator image, and a disk write, which is external); afterwards
`P[i_harm] = mvp(xInVec)` uses the full, untrimmed `xInVec`
(built at line 262, before the study). -/

/-- The order-`n` source term as a field, built from the stored history
`P` by the `xIn_dc` ladder (missing entries read as zero fields; no
theorem engages those cases). -/
def sourceTermField {L M N : ℕ} (beta omega rho c : ℚ)
    (P : List (Field L M N)) (n : ℕ) : Field L M N :=
  fun i j k =>
    (xIn_dc beta omega rho c (fun m => P.getD m (fun _ _ _ => 0) i j k) n).getD 0

/-- One tolerance step of `convergence_domain_size`: the trimmed source
and the operator applied to it (the recorded on-axis line is a projection
of the latter). -/
def convergenceRecord {L M N : ℕ} (op : Field L M N → Field L M N)
    (f_rhs : Field L M N) (tol : ℚ) (h : (bigSet f_rhs tol).Nonempty) :
    Field L M N × Field L M N :=
  (P_trim f_rhs tol h, op (P_trim f_rhs tol h))

/-- The harmonic-loop body of the domain-convergence variant, including
the convergence study: build `xIn`, run the study on it, then append
`mvp(xInVec)` to the history.  Returns the new history and the study's
record. -/
def loopBodyWithStudy {L M N : ℕ} (op : Field L M N → Field L M N)
    (beta omega rho c : ℚ) (P : List (Field L M N)) (n : ℕ) (tol : ℚ)
    (h : (bigSet (sourceTermField beta omega rho c P n) tol).Nonempty) :
    List (Field L M N) × (Field L M N × Field L M N) :=
  let x := sourceTermField beta omega rho c P n
  let r := convergenceRecord op x tol h
  (P ++ [op x], r)

/-- The same loop body with the convergence study skipped. -/
def loopBodyNoStudy {L M N : ℕ} (op : Field L M N → Field L M N)
    (beta omega rho c : ℚ) (P : List (Field L M N)) (n : ℕ) :
    List (Field L M N) :=
  P ++ [op (sourceTermField beta omega rho c P n)]

/-- The order-1 source term over the history `[oneVoxelField]` with unit
parameters is the constant field `-2`. -/
theorem sourceTerm_oneVoxel :
    sourceTermField 1 1 1 1 [oneVoxelField] 1 = fun _ _ _ => (-2 : ℚ) := by
  funext i j k
  simp [sourceTermField, xIn_dc, oneVoxelField]

/-- The maximal amplitude of the constant field `-2` is 2. -/
theorem maxAbs_minusTwo :
    maxAbs (fun _ _ _ => (-2 : ℚ) : Field 1 1 1) = 2 := by
  have habs : (fun v : Fin 1 × Fin 1 × Fin 1 => |(-2 : ℚ)|) = fun _ => (2 : ℚ) := by
    funext v
    norm_num
  unfold maxAbs
  rw [habs, Finset.image_const Finset.univ_nonempty (2 : ℚ),
    Finset.max_singleton]
  rfl

/-- The order-1 source term over `[oneVoxelField]` has an above-tolerance
voxel at tolerance 1/2. -/
theorem oneVoxelStudy_nonempty :
    (bigSet (sourceTermField 1 1 1 1 [oneVoxelField] 1) (1 / 2)).Nonempty := by
  refine ⟨(0, 0, 0), ?_⟩
  rw [sourceTerm_oneVoxel]
  simp only [bigSet, Finset.mem_filter, Finset.mem_univ, true_and,
    maxAbs_minusTwo]
  norm_num

/-- C10: running the domain-truncation study does not affect the cascade:
the history produced with the study equals the history produced without
it; every previously stored field is unchanged; and the newly stored
field is the operator applied to the full, untrimmed source term. -/
theorem study_leaves_cascade_unchanged {L M N : ℕ}
    (op : Field L M N → Field L M N) (beta omega rho c : ℚ)
    (P : List (Field L M N)) (n : ℕ) (tol : ℚ)
    (h : (bigSet (sourceTermField beta omega rho c P n) tol).Nonempty) :
    (loopBodyWithStudy op beta omega rho c P n tol h).1 =
      loopBodyNoStudy op beta omega rho c P n ∧
    (∀ m, m < P.length →
      (loopBodyWithStudy op beta omega rho c P n tol h).1.getD m
          (fun _ _ _ => 0) =
        P.getD m (fun _ _ _ => 0)) ∧
    (loopBodyWithStudy op beta omega rho c P n tol h).1.getD P.length
        (fun _ _ _ => 0) =
      op (sourceTermField beta omega rho c P n) := by
  refine ⟨rfl, ?_, ?_⟩
  · intro m hm
    simp only [loopBodyWithStudy, List.getD_eq_getElem?_getD,
      List.getElem?_append_left hm]
  · simp only [loopBodyWithStudy, List.getD_eq_getElem?_getD,
      List.getElem?_append_right (le_refl P.length)]
    simp

/-- Witness for `study_leaves_cascade_unchanged` on a 1×1×1 grid with the
identity operator, history `[oneVoxelField]`, order 1, tolerance 1/2. -/
theorem study_leaves_cascade_unchanged_witness :
    (loopBodyWithStudy id 1 1 1 1 [oneVoxelField] 1 (1 / 2)
        oneVoxelStudy_nonempty).1 =
      loopBodyNoStudy id 1 1 1 1 [oneVoxelField] 1 ∧
    (∀ m, m < [oneVoxelField].length →
      (loopBodyWithStudy id 1 1 1 1 [oneVoxelField] 1 (1 / 2)
          oneVoxelStudy_nonempty).1.getD m (fun _ _ _ => 0) =
        [oneVoxelField].getD m (fun _ _ _ => 0)) ∧
    (loopBodyWithStudy id 1 1 1 1 [oneVoxelField] 1 (1 / 2)
        oneVoxelStudy_nonempty).1.getD [oneVoxelField].length
        (fun _ _ _ => 0) =
      id (sourceTermField 1 1 1 1 [oneVoxelField] 1) :=
  study_leaves_cascade_unchanged id 1 1 1 1 [oneVoxelField] 1 (1 / 2)
    oneVoxelStudy_nonempty

end Vines
